import Mathlib

/-!
Verification development for the AI-RESUME-REVIEWER deterministic analysis
pipeline (backend/app/services).  The Python sources are shallowly embedded:

* strings are lists of Unicode code points (`List Nat`); the Python string
  operations used by the code (`lower`, `strip`, `split`, slicing, and the
  word-boundary literal regex searches) are modelled on the ASCII range,
  which is the range all the source's patterns and thresholds live in;
* floats are modelled as exact rationals, with Python's `round(x, 2)`
  modelled as round-half-to-even at two decimal places;
* the optional external engines (scikit-learn TF-IDF cosine similarity in
  `skill_gap.py`, sentence-transformers / FAISS in `vector_store.py`, the
  NLTK stopword corpus in `ats_score.py`) are parameters of the embedded
  functions, so every theorem quantifies over their behaviour.
-/

namespace ResumeReviewer

/-- Strings as lists of code points. -/
abbrev Str := List Nat

/-- Converts a Lean string literal to its code-point list. -/
def s2c (s : String) : Str := s.toList.map Char.toNat

/-- ASCII whitespace, the characters Python's `str.strip` / `str.split`
remove in the ASCII range: space, tab, LF, CR, VT, FF. -/
def isSpaceC (c : Nat) : Bool :=
  c == 32 || c == 9 || c == 10 || c == 13 || c == 11 || c == 12

/-- Python `str.strip()`: drop leading and trailing whitespace. -/
def trimS (l : Str) : Str :=
  ((l.dropWhile isSpaceC).reverse.dropWhile isSpaceC).reverse

/-- Python `str.lower()` on one ASCII code point. -/
def lowerN (c : Nat) : Nat := if 65 ≤ c ∧ c ≤ 90 then c + 32 else c

/-- Python `str.lower()` on a string. -/
def lowerL (l : Str) : Str := l.map lowerN

/-- Word characters of the regex class `\w` in the ASCII range:
digits, letters, underscore. -/
def isWordChar (c : Nat) : Bool :=
  (48 ≤ c && c ≤ 57) || (65 ≤ c && c ≤ 90) || (97 ≤ c && c ≤ 122) || c == 95

/-- Whether `lit` occurs in `text` starting at offset `i`. -/
def matchAt (lit text : Str) (i : Nat) : Bool :=
  (text.drop i).take lit.length == lit

/-- Python `needle in haystack` (substring containment).  The empty needle
is contained in everything, as in Python. -/
def isSubstrOf (needle haystack : Str) : Bool :=
  (List.range (haystack.length + 1)).any (fun i => matchAt needle haystack i)

/-- Step function for splitting a string into maximal runs of characters
satisfying `p` (folded from the right). -/
def runsByStep (p : Nat → Bool) (c : Nat) (acc : List Str × Str) : List Str × Str :=
  if p c then (acc.1, c :: acc.2)
  else if acc.2 = [] then (acc.1, []) else (acc.2 :: acc.1, [])

/-- Maximal runs of characters satisfying `p`, in order of appearance. -/
def runsBy (p : Nat → Bool) (l : Str) : List Str :=
  let r := l.foldr (runsByStep p) ([], [])
  if r.2 = [] then r.1 else r.2 :: r.1

/-- Python's `round` to an integer: round half to even. -/
def pyRound (x : ℚ) : ℤ :=
  if x - ⌊x⌋ < 1/2 then ⌊x⌋
  else if 1/2 < x - ⌊x⌋ then ⌊x⌋ + 1
  else if ⌊x⌋ % 2 = 0 then ⌊x⌋ else ⌊x⌋ + 1

/-- Python's `round(x, 2)`: round half to even at two decimal places. -/
def round2 (x : ℚ) : ℚ := (pyRound (x * 100) : ℚ) / 100

/-!
## Skill-Gap Matcher — `skill_gap.py`, `SkillGapAnalyzer`

`analyze` is embedded with the availability of scikit-learn
(`SKLEARN_AVAILABLE`) and the similarity engine
(`_calculate_similarities`, which wraps the external TF-IDF vectorizer)
as parameters.
-/

/-- A `weak_matches` entry.  The similarity-engine path records a rounded
similarity; the fallback path's dict has no `"similarity"` key, modelled
by `none`. -/
structure WeakMatch where
  skill : Str
  matched_with : Str
  similarity : Option ℚ
deriving DecidableEq, Repr

/-- Result dictionary of `SkillGapAnalyzer.analyze`. -/
structure SkillGapResult where
  match_percentage : ℚ
  strong_matches : List Str
  weak_matches : List WeakMatch
  missing_skills : List Str
deriving DecidableEq, Repr

/-- Classification of one required skill: exactly one of the three
result buckets. -/
inductive Cls where
  | strong (s : Str)
  | weak (w : WeakMatch)
  | missing (s : Str)
deriving DecidableEq, Repr

/-- `self.similarity_threshold = 0.4` from `SkillGapAnalyzer.__init__`. -/
def similarityThreshold : ℚ := 4/10

/-- The normalization comprehension
`[s.lower().strip() for s in skills if s.strip()]`. -/
def normList (l : List Str) : List Str :=
  (l.filter (fun s => trimS s ≠ [])).map (fun s => trimS (lowerL s))

/-- Python `list.index`: index of the first occurrence (list length if
absent; `analyze` only calls it on a member). -/
def idxOfQ : List ℚ → ℚ → Nat
  | [], _ => 0
  | x :: xs, q => if x = q then 0 else idxOfQ xs q + 1

/-- `max(similarities) if similarities else 0`. -/
def maxOrZero : List ℚ → ℚ
  | [] => 0
  | h :: t => t.foldl max h

/-- One iteration of the similarity-engine loop body of `analyze`
(lines 50-63): classify `req` by its maximum similarity against the
normalized resume skills. -/
def classifySim (sim : Str → List Str → List ℚ) (resumeNorm : List Str)
    (req : Str) : Cls :=
  let sims := sim req resumeNorm
  let maxSim := maxOrZero sims
  if maxSim ≥ 9/10 then Cls.strong req
  else if maxSim ≥ similarityThreshold then
    Cls.weak { skill := req,
               matched_with := resumeNorm.getD (idxOfQ sims maxSim) [],
               similarity := some (round2 maxSim) }
  else Cls.missing req

/-- One iteration of the fallback loop body of `analyze` (lines 67-79):
exact membership, then first substring match in either direction. -/
def classifyFallback (resumeNorm : List Str) (req : Str) : Cls :=
  if req ∈ resumeNorm then Cls.strong req
  else
    match resumeNorm.find? (fun res => isSubstrOf req res || isSubstrOf res req) with
    | some res => Cls.weak { skill := req, matched_with := res, similarity := none }
    | none => Cls.missing req

/-- The classification loop: each required skill is appended to exactly
one of the three accumulators, preserving order. -/
def classifyAll (f : Str → Cls) : List Str → List Str × List WeakMatch × List Str
  | [] => ([], [], [])
  | r :: rs =>
    let rest := classifyAll f rs
    match f r with
    | Cls.strong x => (x :: rest.1, rest.2.1, rest.2.2)
    | Cls.weak x => (rest.1, x :: rest.2.1, rest.2.2)
    | Cls.missing x => (rest.1, rest.2.1, x :: rest.2.2)

/-- The branch of `analyze` (line 48) that picks the similarity-engine
loop when scikit-learn is available and both normalized lists are
non-empty, and the fallback loop otherwise. -/
def classifyRequired (avail : Bool) (sim : Str → List Str → List ℚ)
    (resumeNorm requiredNorm : List Str) :
    List Str × List WeakMatch × List Str :=
  if avail = true ∧ resumeNorm ≠ [] ∧ requiredNorm ≠ [] then
    classifyAll (classifySim sim resumeNorm) requiredNorm
  else
    classifyAll (classifyFallback resumeNorm) requiredNorm

/-- `SkillGapAnalyzer.analyze`.  `avail` is `SKLEARN_AVAILABLE`; `sim`
models `_calculate_similarities` (the external TF-IDF engine). -/
def analyze (avail : Bool) (sim : Str → List Str → List ℚ)
    (resume required : List Str) : SkillGapResult :=
  if resume = [] then
    { match_percentage := 0, strong_matches := [], weak_matches := [],
      missing_skills := required }
  else
    let resumeNorm := normList resume
    let requiredNorm := normList required
    let cls := classifyRequired avail sim resumeNorm requiredNorm
    let totalReq := requiredNorm.length
    let pct : ℚ :=
      if totalReq > 0 then
        ((cls.1.length : ℚ) + (cls.2.1.length : ℚ) * (1/2)) / totalReq * 100
      else 0
    { match_percentage := round2 pct, strong_matches := cls.1,
      weak_matches := cls.2.1, missing_skills := cls.2.2 }

/-!
## Section Segmenter — `resume_parser.py`, `ResumeParser.segment_sections`

The regex patterns are word-boundary-delimited literals (`\bEDUCATION\b`,
…).  For such patterns `re.finditer` yields exactly the offsets at which
the literal occurs with non-word characters (or the text ends) on both
sides, in increasing order: matches of these patterns can never overlap,
because every literal starts and ends with a letter and none has a
prefix-suffix border compatible with a word boundary.
-/

/-- Word-boundary literal match: `lit` occurs at `i` and both ends sit on
`\b` boundaries (all pattern literals start and end with word
characters). -/
def wbMatchAt (lit text : Str) (i : Nat) : Bool :=
  matchAt lit text i &&
  (i == 0 || !isWordChar (text.getD (i - 1) 0)) &&
  (i + lit.length == text.length || !isWordChar (text.getD (i + lit.length) 0))

/-- `list(re.finditer(pattern, text))` for a word-boundary literal
pattern: all match offsets, in increasing order. -/
def findIterWB (lit text : Str) : List Nat :=
  (List.range (text.length + 1)).filter (fun i => wbMatchAt lit text i)

/-- The header heuristic of `segment_sections` (lines 120-128): the line
containing the match at `start` (from the character after the previous
`'\n'` up to the next `'\n'`), stripped, is under 50 characters. -/
def shortLineAt (text : Str) (start litLen : Nat) : Bool :=
  let e := start + litLen
  let lineStart := start - ((text.take start).reverse.takeWhile (fun c => c ≠ 10)).length
  let lineEnd := e + ((text.drop e).takeWhile (fun c => c ≠ 10)).length
  (trimS ((text.take lineEnd).drop lineStart)).length < 50

/-- `self.sections_patterns` from `ResumeParser.__init__`, in dict
insertion order. -/
def sectionsPatterns : List (Str × List Str) :=
  [ (s2c "education",
      [s2c "EDUCATION", s2c "ACADEMIC BACKGROUND", s2c "QUALIFICATIONS",
       s2c "Education", s2c "Academic Background"]),
    (s2c "experience",
      [s2c "EXPERIENCE", s2c "WORK EXPERIENCE", s2c "PROFESSIONAL EXPERIENCE",
       s2c "EMPLOYMENT HISTORY", s2c "Experience", s2c "Work Experience"]),
    (s2c "skills",
      [s2c "SKILLS", s2c "TECHNICAL SKILLS", s2c "CORE COMPETENCIES",
       s2c "TECHNOLOGIES", s2c "Skills", s2c "Technical Skills"]),
    (s2c "projects",
      [s2c "PROJECTS", s2c "ACADEMIC PROJECTS", s2c "PERSONAL PROJECTS",
       s2c "Projects", s2c "Key Projects"]),
    (s2c "certifications",
      [s2c "CERTIFICATIONS", s2c "CERTIFICATES", s2c "COURSES",
       s2c "Certifications", s2c "Certificates"]) ]

/-- The initial `sections` dictionary of `segment_sections`, in insertion
order. -/
def initSections : List (Str × Str) :=
  [ (s2c "education", []), (s2c "experience", []), (s2c "skills", []),
    (s2c "projects", []), (s2c "certifications", []), (s2c "others", []) ]

/-- The six keys of the `sections` dictionary. -/
def sectionKeys : List Str := initSections.map Prod.fst

/-- Python dict assignment `d[k] = v`: replace the value at an existing
key in place, append the key otherwise. -/
def updateA : List (Str × Str) → Str → Str → List (Str × Str)
  | [], k, v => [(k, v)]
  | (k0, v0) :: rest, k, v =>
    if k0 = k then (k, v) :: rest else (k0, v0) :: updateA rest k v

/-- Python `dict.get(k, default)` with default `""`. -/
def dictGet (l : List (Str × Str)) (k : Str) : Str :=
  match l.find? (fun p => p.1 == k) with
  | some p => p.2
  | none => []

/-- The header-collection loops of `segment_sections` (lines 112-130),
before sorting.  For each section, for each synonym pattern, the first
match whose containing line is under 50 characters contributes one
`(offset, section)` entry (the `break` exits only the loop over that one
pattern's matches). -/
def headerIndicesRaw (text : Str) : List (Nat × Str) :=
  (sectionsPatterns.map (fun sp =>
    (sp.2.map (fun pat =>
      match (findIterWB pat text).find? (fun i => shortLineAt text i pat.length) with
      | some i => [(i, sp.1)]
      | none => ([] : List (Nat × Str)))).flatten)).flatten

/-- Python tuple comparison `(i, s) < (j, t)` for the sort key. -/
def strLt : Str → Str → Bool
  | [], [] => false
  | [], _ :: _ => true
  | _ :: _, [] => false
  | a :: xs, b :: ys => if a < b then true else if a = b then strLt xs ys else false

/-- Strict order on `(offset, section)` pairs, as Python compares the
tuples during `header_indices.sort()`. -/
def hdrLt (a b : Nat × Str) : Bool :=
  if a.1 < b.1 then true else if a.1 = b.1 then strLt a.2 b.2 else false

/-- Insertion step of a stable sort by `hdrLt`. -/
def insHdr (x : Nat × Str) : List (Nat × Str) → List (Nat × Str)
  | [] => [x]
  | y :: ys => if hdrLt y x then y :: insHdr x ys else x :: y :: ys

/-- `header_indices.sort()`: stable insertion sort by the tuple order. -/
def sortHdrs : List (Nat × Str) → List (Nat × Str)
  | [] => []
  | x :: xs => insHdr x (sortHdrs xs)

/-- The sorted header occurrence list of `segment_sections`. -/
def headerIndices (text : Str) : List (Nat × Str) := sortHdrs (headerIndicesRaw text)

/-- The slicing loop of `segment_sections` (lines 140-150): each header's
content runs to the next header's offset (or end of text), is stripped,
and loses its first line when it contains a line break; the value is
assigned into the dictionary, later assignments to the same section
overwriting earlier ones. -/
def applySlices (text : Str) : List (Nat × Str) → List (Str × Str) → List (Str × Str)
  | [], sections => sections
  | (start, name) :: rest, sections =>
    let endIdx := match rest with
      | (s2, _) :: _ => s2
      | [] => text.length
    let content0 := trimS ((text.take endIdx).drop start)
    let k := (content0.takeWhile (fun c => c ≠ 10)).length
    let content := if k < content0.length then trimS (content0.drop k) else content0
    applySlices text rest (updateA sections name content)

/-- `ResumeParser.segment_sections`. -/
def segmentSections (text : Str) : List (Str × Str) :=
  let his := headerIndices text
  if his = [] then updateA initSections (s2c "others") text
  else applySlices text his initSections

/-!
## Compatibility Scorer — `ats_score.py`, `ATSScorer`

The stop-word set comes from the NLTK corpus when available and from a
hardcoded fallback otherwise; it is a parameter `stop` here.  The class
defines `_extract_keywords` twice; the later definition (with stop-word
filtering) overrides the earlier one, so only it is embedded.  Division
is threaded as a parameter `dv` into the experience sub-score so that
theorems can state that the empty-experience branch performs none; the
scorer itself instantiates `dv` with rational division.
-/

/-- `self.weights["keywords"] = 0.40`. -/
def wKeywords : ℚ := 40/100

/-- `self.weights["experience"] = 0.30`. -/
def wExperience : ℚ := 30/100

/-- `self.weights["projects"] = 0.15`. -/
def wProjects : ℚ := 15/100

/-- `self.weights["certifications"] = 0.10`. -/
def wCertifications : ℚ := 10/100

/-- `self.weights["formatting"] = 0.05`. -/
def wFormatting : ℚ := 5/100

/-- `ATSScorer._extract_keywords`: lowercase, take the maximal word-chara
runs of length at least 3 (`\b\w{3,}\b`), drop stop words, and form a
set (modelled as a deduplicated list). -/
def extractKeywords (stop : List Str) (text : Str) : List Str :=
  (((runsBy isWordChar (lowerL text)).filter (fun w => 3 ≤ w.length)).filter
    (fun w => !stop.contains w)).dedup

/-- Result of `_score_keywords`. -/
structure KwResult where
  score : ℚ
  matching_keywords : List Str
  missing_keywords : List Str
deriving Repr

/-- Result of `_score_experience` (the empty branch returns a `message`
and no `relevant_terms_found` key). -/
structure ExpResult where
  score : ℚ
  relevant_terms_found : Option (List Str)
  message : Option Str
deriving Repr

/-- Result of `_score_projects`. -/
structure ProjResult where
  score : ℚ
  word_count : Option Nat
  message : Option Str
deriving Repr

/-- Result of `_score_certifications`. -/
structure CertResult where
  score : ℚ
deriving Repr

/-- Result of `_score_formatting`. -/
structure FmtResult where
  score : ℚ
  missing_sections : List Str
deriving Repr

/-- Structured resume data as consumed by `calculate_score`:
`raw_text` and the `sections` dictionary. -/
structure ResumeData where
  raw_text : Str
  sections : List (Str × Str)

/-- Result of `calculate_score`: overall score, the five-part
breakdown, and the suggestions. -/
structure ScoreResult where
  overall_score : ℚ
  keywords : KwResult
  experience : ExpResult
  projects : ProjResult
  certifications : CertResult
  formatting : FmtResult
  suggestions : List Str

/-- `ATSScorer._score_keywords`. -/
def scoreKeywords (stop : List Str) (rd : ResumeData) (jd : Str) : KwResult :=
  let jdK := extractKeywords stop jd
  let resumeText := lowerL (rd.raw_text ++ [32] ++ dictGet rd.sections (s2c "skills"))
  let resumeK := extractKeywords stop resumeText
  let matchedKw := jdK.filter (fun w => resumeK.contains w)
  let missing := jdK.filter (fun w => !resumeK.contains w)
  let matchRatio : ℚ := if jdK ≠ [] then (matchedKw.length : ℚ) / jdK.length else 0
  { score := min (matchRatio * 100) 100,
    matching_keywords := matchedKw.take 10,
    missing_keywords := missing.take 10 }

/-- `ATSScorer._score_experience`, with the division operation `dv` as a
parameter (the scorer instantiates it with `(· / ·)`). -/
def scoreExperienceGen (dv : ℚ → ℚ → ℚ) (stop : List Str) (expText jd : Str) :
    ExpResult :=
  if trimS expText = [] then
    { score := 0, relevant_terms_found := none,
      message := some (s2c "No experience section found.") }
  else
    let jdK := extractKeywords stop jd
    let expK := extractKeywords stop expText
    let matchedKw := jdK.filter (fun w => expK.contains w)
    let score := min (dv (matchedKw.length : ℚ)
      (if jdK ≠ [] then (jdK.length : ℚ) * (1/2) else 1) * 100) 100
    { score := score, relevant_terms_found := some (matchedKw.take 5), message := none }

/-- `ATSScorer._score_projects`. -/
def scoreProjects (projText : Str) : ProjResult :=
  if trimS projText = [] then
    { score := 0, word_count := none,
      message := some (s2c "No projects section found.") }
  else
    let wc := (runsBy (fun c => !isSpaceC c) projText).length
    let score : ℚ := if wc > 100 then 100 else if wc > 50 then 70 else 40
    { score := score, word_count := some wc, message := none }

/-- `ATSScorer._score_certifications`. -/
def scoreCertifications (certText : Str) : CertResult :=
  { score := if trimS certText ≠ [] then 100 else 0 }

/-- `ATSScorer._score_formatting`. -/
def scoreFormatting (sections : List (Str × Str)) : FmtResult :=
  let required := [s2c "education", s2c "experience", s2c "skills"]
  let found := required.filter (fun s => trimS (dictGet sections s) ≠ [])
  { score := ((found.length : ℚ) / required.length) * 100,
    missing_sections := required.filter (fun s => !found.contains s) }

/-- `ATSScorer._generate_suggestions`. -/
def generateSuggestions (kw : KwResult) (ex : ExpResult) (proj : ProjResult)
    (_cert : CertResult) (fmt : FmtResult) : List Str :=
  (if kw.score < 70 then
    [s2c "Add more keywords from the job description, especially: " ++
      (List.intercalate (s2c ", ") (kw.missing_keywords.take 3))]
   else []) ++
  (if ex.score < 50 then
    [s2c "Tailor your experience bullet points to better match the target role's requirements."]
   else []) ++
  (if proj.score = 0 then
    [s2c "Add a projects section to demonstrate practical application of your skills."]
   else []) ++
  (if fmt.score < 100 then
    [s2c "Ensure your resume has these standard sections: " ++
      (List.intercalate (s2c ", ") fmt.missing_sections)]
   else [])

/-- `ATSScorer.calculate_score`, generic in the experience division. -/
def calculateScoreGen (dv : ℚ → ℚ → ℚ) (stop : List Str) (rd : ResumeData)
    (jd : Str) : ScoreResult :=
  let kw := scoreKeywords stop rd jd
  let ex := scoreExperienceGen dv stop (dictGet rd.sections (s2c "experience")) jd
  let pr := scoreProjects (dictGet rd.sections (s2c "projects"))
  let ce := scoreCertifications (dictGet rd.sections (s2c "certifications"))
  let fm := scoreFormatting rd.sections
  let total := kw.score * wKeywords + ex.score * wExperience + pr.score * wProjects +
    ce.score * wCertifications + fm.score * wFormatting
  { overall_score := round2 total, keywords := kw, experience := ex, projects := pr,
    certifications := ce, formatting := fm,
    suggestions := generateSuggestions kw ex pr ce fm }

/-- `ATSScorer.calculate_score`. -/
def calculateScore (stop : List Str) (rd : ResumeData) (jd : Str) : ScoreResult :=
  calculateScoreGen (fun a b => a / b) stop rd jd

/-!
## Role Retriever — `vector_store.py`, `VectorStore`

The sentence-transformers encoder and the FAISS index search are
external; they are parameters `encode` and `searchIdx`.  The in-memory
state is the (optional) vector index with its `ntotal` and the parallel
metadata list (of an arbitrary type `α`, since `search_similar_roles`
treats the role dictionaries opaquely, only copying them and attaching a
`similarity_score`, modelled by pairing).
-/

/-- State of a `VectorStore`: `VECTOR_SEARCH_AVAILABLE`, `self.index`
(`none` models `None`), and `self.roles_metadata`. -/
structure VectorStore (α : Type) where
  available : Bool
  index : Option (List (List ℚ))
  roles_metadata : List α

/-- `self.index.ntotal`, with 0 for a missing index. -/
def ntotal : Option (List (List ℚ)) → Nat
  | none => 0
  | some v => v.length

/-- Python list indexing `l[i]` (negative indices count from the end;
`none` models an `IndexError`, unreachable for FAISS result indices). -/
def pyGet {α : Type} (l : List α) (i : Int) : Option α :=
  let j : Int := if i < 0 then (l.length : Int) + i else i
  if 0 ≤ j ∧ j < (l.length : Int) then l.get? j.toNat else none

/-- `VectorStore.search_similar_roles`.  `encode` models
`self.model.encode` and `searchIdx` models `self.index.search`, returning
the distance row and index row for the single query. -/
def searchSimilarRoles {α : Type} (encode : Str → List ℚ)
    (searchIdx : List (List ℚ) → List ℚ → Nat → List ℚ × List Int)
    (vs : VectorStore α) (query : Str) (k : Nat) : List (α × ℚ) :=
  if vs.available = false ∨ vs.index.isNone ∨ ntotal vs.index = 0 then []
  else
    let qv := encode query
    let res := searchIdx (vs.index.getD []) qv k
    (res.2.zip res.1).filterMap (fun p =>
      if p.1 ≠ -1 ∧ p.1 < (vs.roles_metadata.length : Int) then
        (pyGet vs.roles_metadata p.1).map (fun r => (r, p.2))
      else none)

/-!
## Helper lemmas
-/

theorem dropWhile_head_false {p : Nat → Bool} {l : Str} {a : Nat} {t : Str}
    (h : l.dropWhile p = a :: t) : p a = false := by
  induction l with
  | nil => simp at h
  | cons c cs ih =>
    by_cases hc : p c
    · exact ih (by simpa [List.dropWhile_cons, hc] using h)
    · rw [List.dropWhile_cons, if_neg hc] at h
      cases h
      exact Bool.eq_false_iff.mpr hc

theorem dropWhile_idem (p : Nat → Bool) (l : Str) :
    (l.dropWhile p).dropWhile p = l.dropWhile p := by
  cases hd : l.dropWhile p with
  | nil => rfl
  | cons a t =>
    rw [List.dropWhile_cons, if_neg]
    rw [dropWhile_head_false hd]
    simp

theorem dropWhile_eq_self_of_head {p : Nat → Bool} {l : Str}
    (h : ∀ a t, l = a :: t → p a = false) : l.dropWhile p = l := by
  cases l with
  | nil => rfl
  | cons a t => rw [List.dropWhile_cons, if_neg]; rw [h a t rfl]; simp

theorem trimS_head_prefix {l : Str} : trimS l <+: l.dropWhile isSpaceC := by
  have h1 : (l.dropWhile isSpaceC).reverse.dropWhile isSpaceC <:+
      (l.dropWhile isSpaceC).reverse := List.dropWhile_suffix _
  have h2 := List.reverse_prefix.mpr h1
  simpa [trimS] using h2

theorem trimS_dropWhile (l : Str) : (trimS l).dropWhile isSpaceC = trimS l := by
  apply dropWhile_eq_self_of_head
  intro a t ht
  have hpre : trimS l <+: l.dropWhile isSpaceC := trimS_head_prefix
  obtain ⟨r, hr⟩ := hpre
  rw [ht] at hr
  exact dropWhile_head_false (p := isSpaceC) (l := l) (t := t ++ r)
    (by rw [← hr]; simp)

theorem trimS_idem (l : Str) : trimS (trimS l) = trimS l := by
  have h1 : trimS (trimS l) =
      (((trimS l).dropWhile isSpaceC).reverse.dropWhile isSpaceC).reverse := rfl
  rw [h1, trimS_dropWhile]
  show ((trimS l).reverse.dropWhile isSpaceC).reverse = trimS l
  unfold trimS
  rw [List.reverse_reverse, dropWhile_idem]

theorem lowerN_idem (c : Nat) : lowerN (lowerN c) = lowerN c := by
  unfold lowerN
  split
  · rename_i h
    rw [if_neg]
    omega
  · rfl

theorem isSpaceC_lowerN (c : Nat) : isSpaceC (lowerN c) = isSpaceC c := by
  unfold lowerN isSpaceC
  split
  · rename_i h
    have hl : (c + 32 == 32 || c + 32 == 9 || c + 32 == 10 || c + 32 == 13 ||
        c + 32 == 11 || c + 32 == 12) = false := by
      simp only [Bool.or_eq_false_iff, beq_eq_false_iff_ne, ne_eq]
      omega
    have hr : (c == 32 || c == 9 || c == 10 || c == 13 || c == 11 || c == 12) = false := by
      simp only [Bool.or_eq_false_iff, beq_eq_false_iff_ne, ne_eq]
      omega
    rw [hl, hr]
  · rfl

theorem isSpaceC_comp_lowerN : isSpaceC ∘ lowerN = isSpaceC :=
  funext isSpaceC_lowerN

theorem lowerL_trimS (l : Str) : lowerL (trimS l) = trimS (lowerL l) := by
  unfold trimS lowerL
  rw [List.dropWhile_map, isSpaceC_comp_lowerN, ← List.map_reverse,
    List.dropWhile_map, isSpaceC_comp_lowerN, ← List.map_reverse]

theorem lowerL_idem (l : Str) : lowerL (lowerL l) = lowerL l := by
  unfold lowerL
  rw [List.map_map]
  exact List.map_congr_left (fun c _ => lowerN_idem c)

/-- A string is in normalized form when lowercasing then stripping it is
the identity (the form `s.lower().strip()` produces). -/
def isNormalized (s : Str) : Prop := trimS (lowerL s) = s

instance (s : Str) : Decidable (isNormalized s) := by
  unfold isNormalized; infer_instance

theorem isNormalized_normApply (s : Str) : isNormalized (trimS (lowerL s)) := by
  unfold isNormalized
  rw [lowerL_trimS, lowerL_idem, trimS_idem]

theorem isNormalized_nil : isNormalized [] := by decide

theorem mem_normList_isNormalized {x : Str} {l : List Str}
    (h : x ∈ normList l) : isNormalized x := by
  unfold normList at h
  obtain ⟨s, _, rfl⟩ := List.mem_map.mp h
  exact isNormalized_normApply s

theorem classifyAll_lengths (f : Str → Cls) (l : List Str) :
    (classifyAll f l).1.length + (classifyAll f l).2.1.length +
      (classifyAll f l).2.2.length = l.length := by
  induction l with
  | nil => rfl
  | cons r rs ih =>
    simp only [classifyAll]
    cases f r <;> simp <;> omega

theorem mem_classifyAll_strong {f : Str → Cls} {l : List Str} {x : Str}
    (h : x ∈ (classifyAll f l).1) : ∃ y ∈ l, f y = Cls.strong x := by
  induction l with
  | nil => simp [classifyAll] at h
  | cons r rs ih =>
    simp only [classifyAll] at h
    cases hf : f r <;> rw [hf] at h <;> simp at h
    case strong s =>
      rcases h with h | h
      · exact ⟨r, by simp, by rw [hf, h]⟩
      · obtain ⟨y, hy, hfy⟩ := ih h
        exact ⟨y, by simp [hy], hfy⟩
    case weak w =>
      obtain ⟨y, hy, hfy⟩ := ih h
      exact ⟨y, by simp [hy], hfy⟩
    case missing s =>
      obtain ⟨y, hy, hfy⟩ := ih h
      exact ⟨y, by simp [hy], hfy⟩

theorem mem_classifyAll_weak {f : Str → Cls} {l : List Str} {w : WeakMatch}
    (h : w ∈ (classifyAll f l).2.1) : ∃ y ∈ l, f y = Cls.weak w := by
  induction l with
  | nil => simp [classifyAll] at h
  | cons r rs ih =>
    simp only [classifyAll] at h
    cases hf : f r <;> rw [hf] at h <;> simp at h
    case strong s =>
      obtain ⟨y, hy, hfy⟩ := ih h
      exact ⟨y, by simp [hy], hfy⟩
    case weak w' =>
      rcases h with h | h
      · exact ⟨r, by simp, by rw [hf, h]⟩
      · obtain ⟨y, hy, hfy⟩ := ih h
        exact ⟨y, by simp [hy], hfy⟩
    case missing s =>
      obtain ⟨y, hy, hfy⟩ := ih h
      exact ⟨y, by simp [hy], hfy⟩

theorem mem_classifyAll_missing {f : Str → Cls} {l : List Str} {x : Str}
    (h : x ∈ (classifyAll f l).2.2) : ∃ y ∈ l, f y = Cls.missing x := by
  induction l with
  | nil => simp [classifyAll] at h
  | cons r rs ih =>
    simp only [classifyAll] at h
    cases hf : f r <;> rw [hf] at h <;> simp at h
    case strong s =>
      obtain ⟨y, hy, hfy⟩ := ih h
      exact ⟨y, by simp [hy], hfy⟩
    case weak w =>
      obtain ⟨y, hy, hfy⟩ := ih h
      exact ⟨y, by simp [hy], hfy⟩
    case missing s =>
      rcases h with h | h
      · exact ⟨r, by simp, by rw [hf, h]⟩
      · obtain ⟨y, hy, hfy⟩ := ih h
        exact ⟨y, by simp [hy], hfy⟩

theorem classifyAll_strong_of_mem {f : Str → Cls} {l : List Str} {y x : Str}
    (hy : y ∈ l) (hf : f y = Cls.strong x) : x ∈ (classifyAll f l).1 := by
  induction l with
  | nil => simp at hy
  | cons r rs ih =>
    simp only [classifyAll]
    rcases List.mem_cons.mp hy with rfl | hy'
    · rw [hf]; simp
    · cases hfr : f r <;> simp [ih hy']

theorem classifyAll_weak_of_mem {f : Str → Cls} {l : List Str} {y : Str}
    {w : WeakMatch} (hy : y ∈ l) (hf : f y = Cls.weak w) :
    w ∈ (classifyAll f l).2.1 := by
  induction l with
  | nil => simp at hy
  | cons r rs ih =>
    simp only [classifyAll]
    rcases List.mem_cons.mp hy with rfl | hy'
    · rw [hf]; simp
    · cases hfr : f r <;> simp [ih hy']

theorem foldl_max_mem (t : List ℚ) (a : ℚ) :
    t.foldl max a = a ∨ t.foldl max a ∈ t := by
  induction t generalizing a with
  | nil => left; rfl
  | cons h s ih =>
    simp only [List.foldl_cons]
    rcases ih (max a h) with he | hm
    · rw [he]
      rcases max_choice a h with h1 | h1
      · left; exact h1
      · right; simp [h1]
    · right; simp [hm]

theorem maxOrZero_mem {l : List ℚ} (h : l ≠ []) : maxOrZero l ∈ l := by
  cases l with
  | nil => exact absurd rfl h
  | cons a t =>
    unfold maxOrZero
    rcases foldl_max_mem t a with he | hm
    · simp [he]
    · simp [hm]

theorem idxOfQ_lt_length {l : List ℚ} {q : ℚ} (h : q ∈ l) :
    idxOfQ l q < l.length := by
  induction l with
  | nil => simp at h
  | cons x xs ih =>
    unfold idxOfQ
    by_cases hx : x = q
    · simp [hx]
    · rw [if_neg hx]
      have : q ∈ xs := by
        rcases List.mem_cons.mp h with h1 | h1
        · exact absurd h1.symm hx
        · exact h1
      simpa using ih this

theorem getD_mem_or_default {α : Type} (l : List α) (n : Nat) (d : α) :
    l.getD n d ∈ l ∨ l.getD n d = d := by
  by_cases h : n < l.length
  · left
    rw [List.getD_eq_getElem?_getD, List.getElem?_eq_getElem h]
    exact List.getElem_mem h
  · right
    rw [List.getD_eq_getElem?_getD, List.getElem?_eq_none (by omega)]
    rfl

/-!
### Rounding bounds
-/

theorem pyRound_nonneg {x : ℚ} (h : 0 ≤ x) : 0 ≤ pyRound x := by
  unfold pyRound
  have hf : (0 : ℤ) ≤ ⌊x⌋ := Int.floor_nonneg.mpr h
  split
  · exact hf
  · split
    · omega
    · split <;> omega

theorem pyRound_le {x : ℚ} {n : ℤ} (h : x ≤ (n : ℚ)) : pyRound x ≤ n := by
  unfold pyRound
  have hfn : ⌊x⌋ ≤ n := by
    have := Int.floor_le_floor h
    simpa using this
  split
  · exact hfn
  · rename_i h1
    have hlt : (⌊x⌋ : ℚ) < x := by
      have h2 : ¬(x - ⌊x⌋ < 1/2) := h1
      have h3 : (0:ℚ) < 1/2 := by norm_num
      have := Int.floor_le x
      by_contra hc
      push_neg at hc
      have : x = (⌊x⌋ : ℚ) := le_antisymm hc (Int.floor_le x)
      rw [this] at h2
      norm_num at h2
    have hfn' : ⌊x⌋ < n := by
      have : (⌊x⌋ : ℚ) < (n : ℚ) := lt_of_lt_of_le hlt h
      exact_mod_cast this
    split
    · omega
    · split <;> omega

theorem round2_nonneg {x : ℚ} (h : 0 ≤ x) : 0 ≤ round2 x := by
  unfold round2
  have h1 : (0 : ℤ) ≤ pyRound (x * 100) := pyRound_nonneg (by linarith)
  have h2 : (0 : ℚ) ≤ (pyRound (x * 100) : ℚ) := by exact_mod_cast h1
  positivity

theorem round2_le_100 {x : ℚ} (h : x ≤ 100) : round2 x ≤ 100 := by
  unfold round2
  have h1 : pyRound (x * 100) ≤ (10000 : ℤ) := pyRound_le (by push_cast; linarith)
  have h2 : (pyRound (x * 100) : ℚ) ≤ 10000 := by exact_mod_cast h1
  linarith

theorem round2_zero : round2 0 = 0 := by
  unfold round2 pyRound
  norm_num

/-!
### Skill-gap structural lemmas
-/

theorem normList_length (l : List Str) :
    (normList l).length = (l.filter (fun s => trimS s ≠ [])).length := by
  unfold normList; rw [List.length_map]

theorem classifySim_strong_eq {sim : Str → List Str → List ℚ} {rn : List Str}
    {y x : Str} (h : classifySim sim rn y = Cls.strong x) : x = y := by
  simp only [classifySim] at h
  split at h
  · simp at h; exact h.symm
  · split at h <;> simp at h

theorem classifySim_missing_eq {sim : Str → List Str → List ℚ} {rn : List Str}
    {y x : Str} (h : classifySim sim rn y = Cls.missing x) : x = y := by
  simp only [classifySim] at h
  split at h
  · simp at h
  · split at h <;> simp at h
    exact h.symm

theorem classifySim_weak_spec {sim : Str → List Str → List ℚ} {rn : List Str}
    {y : Str} {w : WeakMatch} (h : classifySim sim rn y = Cls.weak w) :
    w.skill = y ∧ (w.matched_with ∈ rn ∨ w.matched_with = []) := by
  simp only [classifySim] at h
  split at h
  · simp at h
  · split at h
    · simp at h
      constructor
      · rw [← h]
      · rw [← h]
        simpa using getD_mem_or_default rn _ []
    · simp at h

theorem classifyFallback_strong_eq {rn : List Str} {y x : Str}
    (h : classifyFallback rn y = Cls.strong x) : x = y := by
  simp only [classifyFallback] at h
  split at h
  · simp at h; exact h.symm
  · split at h <;> simp at h

theorem classifyFallback_missing_eq {rn : List Str} {y x : Str}
    (h : classifyFallback rn y = Cls.missing x) : x = y := by
  simp only [classifyFallback] at h
  split at h
  · simp at h
  · split at h <;> simp at h
    exact h.symm

theorem classifyFallback_weak_spec {rn : List Str} {y : Str} {w : WeakMatch}
    (h : classifyFallback rn y = Cls.weak w) :
    w.skill = y ∧ w.matched_with ∈ rn := by
  simp only [classifyFallback] at h
  split at h
  · simp at h
  · split at h <;> simp at h
    rename_i res hfind
    constructor
    · rw [← h]
    · rw [← h]
      exact List.mem_of_find?_eq_some hfind

theorem classifyRequired_lengths (avail : Bool) (sim : Str → List Str → List ℚ)
    (rn qn : List Str) :
    (classifyRequired avail sim rn qn).1.length +
    (classifyRequired avail sim rn qn).2.1.length +
    (classifyRequired avail sim rn qn).2.2.length = qn.length := by
  unfold classifyRequired
  split <;> exact classifyAll_lengths _ _

theorem classifyRequired_false (sim : Str → List Str → List ℚ) (rn qn : List Str) :
    classifyRequired false sim rn qn = classifyAll (classifyFallback rn) qn := by
  unfold classifyRequired
  rw [if_neg]
  simp

theorem classifyRequired_strong_sub {avail : Bool} {sim : Str → List Str → List ℚ}
    {rn qn : List Str} {x : Str}
    (h : x ∈ (classifyRequired avail sim rn qn).1) : x ∈ qn := by
  unfold classifyRequired at h
  split at h
  · obtain ⟨y, hy, hf⟩ := mem_classifyAll_strong h
    rwa [classifySim_strong_eq hf]
  · obtain ⟨y, hy, hf⟩ := mem_classifyAll_strong h
    rwa [classifyFallback_strong_eq hf]

theorem classifyRequired_missing_sub {avail : Bool} {sim : Str → List Str → List ℚ}
    {rn qn : List Str} {x : Str}
    (h : x ∈ (classifyRequired avail sim rn qn).2.2) : x ∈ qn := by
  unfold classifyRequired at h
  split at h
  · obtain ⟨y, hy, hf⟩ := mem_classifyAll_missing h
    rwa [classifySim_missing_eq hf]
  · obtain ⟨y, hy, hf⟩ := mem_classifyAll_missing h
    rwa [classifyFallback_missing_eq hf]

theorem classifyRequired_weak_spec {avail : Bool} {sim : Str → List Str → List ℚ}
    {rn qn : List Str} {w : WeakMatch}
    (h : w ∈ (classifyRequired avail sim rn qn).2.1) :
    w.skill ∈ qn ∧ (w.matched_with ∈ rn ∨ w.matched_with = []) := by
  unfold classifyRequired at h
  split at h
  · obtain ⟨y, hy, hf⟩ := mem_classifyAll_weak h
    obtain ⟨hs, hm⟩ := classifySim_weak_spec hf
    exact ⟨hs ▸ hy, hm⟩
  · obtain ⟨y, hy, hf⟩ := mem_classifyAll_weak h
    obtain ⟨hs, hm⟩ := classifyFallback_weak_spec hf
    exact ⟨hs ▸ hy, Or.inl hm⟩

theorem analyze_match_percentage_eq (avail : Bool) (sim : Str → List Str → List ℚ)
    {resume : List Str} (required : List Str) (h : resume ≠ []) :
    (analyze avail sim resume required).match_percentage =
      round2 (if (normList required).length > 0 then
        (((classifyRequired avail sim (normList resume) (normList required)).1.length : ℚ) +
         ((classifyRequired avail sim (normList resume) (normList required)).2.1.length : ℚ) * (1/2)) /
         ((normList required).length : ℚ) * 100
      else 0) := by
  unfold analyze
  rw [if_neg h]

theorem analyze_strong_eq (avail : Bool) (sim : Str → List Str → List ℚ)
    {resume : List Str} (required : List Str) (h : resume ≠ []) :
    (analyze avail sim resume required).strong_matches =
      (classifyRequired avail sim (normList resume) (normList required)).1 := by
  unfold analyze
  rw [if_neg h]

theorem analyze_weak_eq (avail : Bool) (sim : Str → List Str → List ℚ)
    {resume : List Str} (required : List Str) (h : resume ≠ []) :
    (analyze avail sim resume required).weak_matches =
      (classifyRequired avail sim (normList resume) (normList required)).2.1 := by
  unfold analyze
  rw [if_neg h]

theorem analyze_missing_eq (avail : Bool) (sim : Str → List Str → List ℚ)
    {resume : List Str} (required : List Str) (h : resume ≠ []) :
    (analyze avail sim resume required).missing_skills =
      (classifyRequired avail sim (normList resume) (normList required)).2.2 := by
  unfold analyze
  rw [if_neg h]

theorem formula_bounds (s w count : Nat) (hle : s + w ≤ count) (hpos : 0 < count) :
    0 ≤ ((s:ℚ) + (w:ℚ)*(1/2))/(count:ℚ)*100 ∧
    ((s:ℚ) + (w:ℚ)*(1/2))/(count:ℚ)*100 ≤ 100 := by
  have hc : (0:ℚ) < count := by exact_mod_cast hpos
  constructor
  · positivity
  · rw [div_mul_eq_mul_div, div_le_iff₀ hc]
    have hs : (s:ℚ) + w ≤ count := by exact_mod_cast hle
    have hw : (0:ℚ) ≤ w := by positivity
    linarith

/-!
## Claim theorems: Skill-Gap Matcher
-/

/-- C6: for every required skill list, when the resume skill list is
empty `analyze` returns every required skill (verbatim) in
`missing_skills`, empty `strong_matches` and `weak_matches`, and
`match_percentage` 0.  The result is the same for every similarity
engine `sim` and availability flag, so no similarity computation is
involved. -/
theorem skillGap_empty_resume (avail : Bool) (sim : Str → List Str → List ℚ)
    (required : List Str) :
    analyze avail sim [] required =
      { match_percentage := 0, strong_matches := [], weak_matches := [],
        missing_skills := required } := by
  unfold analyze
  rw [if_pos rfl]

/-- C10: for every pair of skill lists with a non-empty resume skill
list, each required skill goes to exactly one of the three result
buckets, so the bucket sizes sum to the number of required skills whose
trimmed form is non-empty — in both the similarity-engine and fallback
code paths. -/
theorem skillGap_partition (avail : Bool) (sim : Str → List Str → List ℚ)
    (resume required : List Str) (h : resume ≠ []) :
    (analyze avail sim resume required).strong_matches.length +
    (analyze avail sim resume required).weak_matches.length +
    (analyze avail sim resume required).missing_skills.length =
    (required.filter (fun s => trimS s ≠ [])).length := by
  rw [analyze_strong_eq avail sim required h, analyze_weak_eq avail sim required h,
    analyze_missing_eq avail sim required h, ← normList_length]
  exact classifyRequired_lengths _ _ _ _

/-- Witness for C10 at a concrete input: resume `["a"]`, required
`["b", " "]` (one required skill with non-empty trim). -/
theorem skillGap_partition_witness :
    (analyze false (fun _ _ => []) [s2c "a"] [s2c "b", s2c " "]).strong_matches.length +
    (analyze false (fun _ _ => []) [s2c "a"] [s2c "b", s2c " "]).weak_matches.length +
    (analyze false (fun _ _ => []) [s2c "a"] [s2c "b", s2c " "]).missing_skills.length = 1 :=
  (skillGap_partition false (fun _ _ => []) [s2c "a"] [s2c "b", s2c " "]
    (by decide)).trans (by decide)

unseal Rat.inv Rat.mul Rat.add Rat.sub in
/-- C2 counterexample: with the fallback matcher, resume `["a"]` and
required `["a", "b", "c"]` give 1 strong, 0 weak and 2 missing matches,
but the returned `match_percentage` is `33.33`, not the claimed
`100 × (1 + 0.5 × 0) / 3 = 100/3`: the code rounds the percentage to
two decimal places before returning it. -/
theorem skillGap_matchPercentage_cex :
    (analyze false (fun _ _ => []) [s2c "a"] [s2c "a", s2c "b", s2c "c"]).strong_matches.length = 1 ∧
    (analyze false (fun _ _ => []) [s2c "a"] [s2c "a", s2c "b", s2c "c"]).weak_matches.length = 0 ∧
    (analyze false (fun _ _ => []) [s2c "a"] [s2c "a", s2c "b", s2c "c"]).missing_skills.length = 2 ∧
    (analyze false (fun _ _ => []) [s2c "a"] [s2c "a", s2c "b", s2c "c"]).match_percentage = 3333/100 ∧
    (3333/100 : ℚ) ≠ 100 * (1 + (1/2) * 0) / 3 := by
  decide

/-- C2 (amended): for every pair of skill lists, `match_percentage` lies
in [0, 100]; when the number of required skills with non-empty trimmed
form is positive it equals `100 × (|strong| + 0.5 × |weak|) / required_count`
rounded to two decimal places, and when the required list is empty it
equals 0. -/
theorem skillGap_matchPercentage (avail : Bool) (sim : Str → List Str → List ℚ)
    (resume required : List Str) :
    0 ≤ (analyze avail sim resume required).match_percentage ∧
    (analyze avail sim resume required).match_percentage ≤ 100 ∧
    (0 < (required.filter (fun s => trimS s ≠ [])).length →
      (analyze avail sim resume required).match_percentage =
        round2 ((((analyze avail sim resume required).strong_matches.length : ℚ) +
          ((analyze avail sim resume required).weak_matches.length : ℚ) * (1/2)) /
          ((required.filter (fun s => trimS s ≠ [])).length : ℚ) * 100)) ∧
    (required = [] → (analyze avail sim resume required).match_percentage = 0) := by
  by_cases hres : resume = []
  · subst hres
    have he : analyze avail sim [] required =
        { match_percentage := 0, strong_matches := [], weak_matches := [],
          missing_skills := required } := by
      unfold analyze; rw [if_pos rfl]
    rw [he]
    refine ⟨le_refl 0, by norm_num, fun _ => ?_, fun _ => rfl⟩
    show (0:ℚ) = round2 ((((List.length []:Nat):ℚ) + ((List.length ([]:List WeakMatch):Nat):ℚ) * (1/2)) / _ * 100)
    simp [round2_zero]
  · have hcnt := normList_length required
    rw [analyze_match_percentage_eq avail sim required hres,
      analyze_strong_eq avail sim required hres, analyze_weak_eq avail sim required hres]
    have hpart := classifyRequired_lengths avail sim (normList resume) (normList required)
    rcases Nat.eq_zero_or_pos (normList required).length with hz | hpos
    · rw [if_neg (by omega)]
      rw [round2_zero]
      refine ⟨le_refl 0, by norm_num, fun hcount => ?_, fun _ => rfl⟩
      omega
    · rw [if_pos (by omega)]
      have hle : (classifyRequired avail sim (normList resume) (normList required)).1.length +
          (classifyRequired avail sim (normList resume) (normList required)).2.1.length ≤
          (normList required).length := by omega
      obtain ⟨hb1, hb2⟩ := formula_bounds _ _ _ hle hpos
      refine ⟨round2_nonneg hb1, round2_le_100 hb2, fun _ => ?_, fun hreq => ?_⟩
      · rw [← hcnt]
      · subst hreq
        simp [normList] at hpos

/-- Witness for C2 at a concrete input: resume `["a"]`, required
`["a"]` (required count 1 > 0). -/
theorem skillGap_matchPercentage_witness :
    0 ≤ (analyze false (fun _ _ => []) [s2c "a"] [s2c "a"]).match_percentage ∧
    (analyze false (fun _ _ => []) [s2c "a"] [s2c "a"]).match_percentage ≤ 100 ∧
    (analyze false (fun _ _ => []) [s2c "a"] [s2c "a"]).match_percentage =
      round2 ((((analyze false (fun _ _ => []) [s2c "a"] [s2c "a"]).strong_matches.length : ℚ) +
        ((analyze false (fun _ _ => []) [s2c "a"] [s2c "a"]).weak_matches.length : ℚ) * (1/2)) /
        (([s2c "a"].filter (fun s => trimS s ≠ [])).length : ℚ) * 100) := by
  have h := skillGap_matchPercentage false (fun _ _ => []) [s2c "a"] [s2c "a"]
  exact ⟨h.1, h.2.1, h.2.2.1 (by decide)⟩

/-- C4: in the fallback (no similarity engine) mode with a non-empty
resume skill list, a normalized required skill that is a substring of
some normalized resume skill, or vice versa, ends up in `strong_matches`
or `weak_matches`, never in `missing_skills`. -/
theorem skillGap_fallback_substring (sim : Str → List Str → List ℚ)
    (resume required : List Str) (req res : Str) (hne : resume ≠ [])
    (hreq : req ∈ normList required) (hres : res ∈ normList resume)
    (hsub : isSubstrOf req res = true ∨ isSubstrOf res req = true) :
    (req ∈ (analyze false sim resume required).strong_matches ∨
      ∃ w ∈ (analyze false sim resume required).weak_matches, w.skill = req) ∧
    req ∉ (analyze false sim resume required).missing_skills := by
  have hcls : classifyFallback (normList resume) req = Cls.strong req ∨
      ∃ w : WeakMatch, classifyFallback (normList resume) req = Cls.weak w ∧
        w.skill = req := by
    unfold classifyFallback
    by_cases hm : req ∈ normList resume
    · left; rw [if_pos hm]
    · rw [if_neg hm]
      cases hfind : List.find? (fun r => isSubstrOf req r || isSubstrOf r req)
          (normList resume) with
      | none =>
        exfalso
        have := List.find?_eq_none.mp hfind res hres
        rcases hsub with h | h <;> simp [h] at this
      | some r' =>
        right
        exact ⟨{ skill := req, matched_with := r', similarity := none }, rfl, rfl⟩
  rw [analyze_strong_eq false sim required hne, analyze_weak_eq false sim required hne,
    analyze_missing_eq false sim required hne, classifyRequired_false]
  constructor
  · rcases hcls with hs | ⟨w, hw, hws⟩
    · left; exact classifyAll_strong_of_mem hreq hs
    · right; exact ⟨w, classifyAll_weak_of_mem hreq hw, hws⟩
  · intro hmem
    obtain ⟨y, hy, hfy⟩ := mem_classifyAll_missing hmem
    have heq : req = y := classifyFallback_missing_eq hfy
    subst heq
    rcases hcls with hs | ⟨w, hw, _⟩
    · rw [hs] at hfy; simp at hfy
    · rw [hw] at hfy; simp at hfy

/-- Witness for C4 at a concrete input: resume `["Py"]`, required
`[" py"]`; the normalized forms are both `"py"`, a (reflexive) substring
match. -/
theorem skillGap_fallback_substring_witness :
    (s2c "py" ∈ (analyze false (fun _ _ => []) [s2c "Py"] [s2c " py"]).strong_matches ∨
      ∃ w ∈ (analyze false (fun _ _ => []) [s2c "Py"] [s2c " py"]).weak_matches,
        w.skill = s2c "py") ∧
    s2c "py" ∉ (analyze false (fun _ _ => []) [s2c "Py"] [s2c " py"]).missing_skills :=
  skillGap_fallback_substring (fun _ _ => []) [s2c "Py"] [s2c " py"] (s2c "py") (s2c "py")
    (by decide) (by decide) (by decide) (Or.inl (by decide))

/-- C5 counterexample: with an empty resume skill list and required
`["  Python "]`, the returned `missing_skills` contains the raw string
`"  Python "`, which is not in lowercased-trimmed normalized form — the
early empty-resume return passes `required_skills` through verbatim. -/
theorem skillGap_normalized_cex :
    (analyze false (fun _ _ => []) [] [s2c "  Python "]).missing_skills =
      [s2c "  Python "] ∧
    ¬ isNormalized (s2c "  Python ") := by
  decide

/-- C5 (amended): whenever the resume skill list is non-empty, every
skill string in the result (strong matches, missing skills, and the
`skill` and `matched_with` fields of weak matches) is in
lowercased-trimmed normalized form.  (When the resume skill list is
empty the required skills are returned verbatim in `missing_skills`.) -/
theorem skillGap_normalized (avail : Bool) (sim : Str → List Str → List ℚ)
    (resume required : List Str) (hne : resume ≠ []) :
    (∀ s ∈ (analyze avail sim resume required).strong_matches, isNormalized s) ∧
    (∀ w ∈ (analyze avail sim resume required).weak_matches,
      isNormalized w.skill ∧ isNormalized w.matched_with) ∧
    (∀ s ∈ (analyze avail sim resume required).missing_skills, isNormalized s) := by
  rw [analyze_strong_eq avail sim required hne, analyze_weak_eq avail sim required hne,
    analyze_missing_eq avail sim required hne]
  refine ⟨?_, ?_, ?_⟩
  · intro s hs
    exact mem_normList_isNormalized (classifyRequired_strong_sub hs)
  · intro w hw
    obtain ⟨hskill, hmw⟩ := classifyRequired_weak_spec hw
    refine ⟨mem_normList_isNormalized hskill, ?_⟩
    rcases hmw with hm | hm
    · exact mem_normList_isNormalized hm
    · rw [hm]; exact isNormalized_nil
  · intro s hs
    exact mem_normList_isNormalized (classifyRequired_missing_sub hs)

/-- Witness for C5 at a concrete input: resume `[" A"]`, required
`["A "]`; the fallback classifies the normalized `"a"` as strong, and
the theorem shows it is normalized. -/
theorem skillGap_normalized_witness : isNormalized (s2c "a") :=
  (skillGap_normalized false (fun _ _ => []) [s2c " A"] [s2c "A "]
    (by decide)).1 (s2c "a") (by decide)

/-!
### Section-segmenter structural lemmas
-/

theorem mem_insHdr {x y : Nat × Str} {l : List (Nat × Str)} :
    y ∈ insHdr x l ↔ y = x ∨ y ∈ l := by
  induction l with
  | nil => simp [insHdr]
  | cons a t ih =>
    unfold insHdr
    by_cases h : hdrLt a x = true
    · rw [if_pos h]
      simp only [List.mem_cons, ih]
      tauto
    · rw [if_neg h]
      simp only [List.mem_cons]

theorem mem_sortHdrs {y : Nat × Str} {l : List (Nat × Str)} :
    y ∈ sortHdrs l ↔ y ∈ l := by
  induction l with
  | nil => simp [sortHdrs]
  | cons a t ih =>
    unfold sortHdrs
    rw [mem_insHdr]
    simp [ih]

theorem headerIndicesRaw_sections {text : Str} {p : Nat × Str}
    (h : p ∈ headerIndicesRaw text) : p.2 ∈ sectionsPatterns.map Prod.fst := by
  unfold headerIndicesRaw at h
  rw [List.mem_flatten] at h
  obtain ⟨l, hl, hpl⟩ := h
  rw [List.mem_map] at hl
  obtain ⟨sp, hsp, rfl⟩ := hl
  rw [List.mem_flatten] at hpl
  obtain ⟨l2, hl2, hpl2⟩ := hpl
  rw [List.mem_map] at hl2
  obtain ⟨pat, _, rfl⟩ := hl2
  cases hf : (findIterWB pat text).find? (fun i => shortLineAt text i pat.length) with
  | none => rw [hf] at hpl2; simp at hpl2
  | some i =>
    rw [hf] at hpl2
    simp at hpl2
    rw [hpl2]
    exact List.mem_map.mpr ⟨sp, hsp, rfl⟩

theorem sectionsPatterns_fst_sub :
    ∀ k ∈ sectionsPatterns.map Prod.fst, k ∈ sectionKeys := by decide

theorem mem_headerIndices_sections {text : Str} {p : Nat × Str}
    (h : p ∈ headerIndices text) : p.2 ∈ sectionKeys :=
  sectionsPatterns_fst_sub _ (headerIndicesRaw_sections (mem_sortHdrs.mp h))

theorem updateA_keys {l : List (Str × Str)} {k : Str} (v : Str)
    (h : k ∈ l.map Prod.fst) :
    (updateA l k v).map Prod.fst = l.map Prod.fst := by
  induction l with
  | nil => simp at h
  | cons a t ih =>
    obtain ⟨k0, v0⟩ := a
    unfold updateA
    by_cases he : k0 = k
    · rw [if_pos he]
      simp [he]
    · rw [if_neg he]
      simp only [List.map_cons]
      rw [List.map_cons, List.mem_cons] at h
      rcases h with h | h
      · exact absurd h.symm he
      · rw [ih h]

theorem applySlices_keys {text : Str} {his : List (Nat × Str)}
    {sections : List (Str × Str)}
    (h : ∀ p ∈ his, p.2 ∈ sections.map Prod.fst) :
    (applySlices text his sections).map Prod.fst = sections.map Prod.fst := by
  induction his generalizing sections with
  | nil => rfl
  | cons a t ih =>
    obtain ⟨start, name⟩ := a
    have hname : name ∈ sections.map Prod.fst := h (start, name) (by simp)
    have step : ∀ v : Str,
        (applySlices text t (updateA sections name v)).map Prod.fst =
          sections.map Prod.fst := by
      intro v
      rw [ih (fun p hp => by
        rw [updateA_keys v hname]
        exact h p (List.mem_cons_of_mem _ hp)), updateA_keys v hname]
    unfold applySlices
    exact step _

/-!
## Claim theorems: Section Segmenter
-/

/-- C1 (evidence of the code bug): on the text
`"EDUCATION\nabc\nQUALIFICATIONS\nxyz"` the education section matches two
of its synonym patterns (`EDUCATION` at offset 0 and `QUALIFICATIONS` at
offset 14) and contributes **two** header occurrences — the `break` at
line 130 of `resume_parser.py` only stops iterating over the matches of
the one pattern, not over the section's remaining synonyms, contradicting
its own comment ("Found one header for this section, stop looking for
synonyms").  As a consequence the final education content is `"xyz"`
(the slice of the second occurrence) rather than the content following
the first header. -/
theorem segment_multiHeader_bug :
    headerIndices (s2c "EDUCATION\nabc\nQUALIFICATIONS\nxyz") =
      [(0, s2c "education"), (14, s2c "education")] ∧
    ((headerIndices (s2c "EDUCATION\nabc\nQUALIFICATIONS\nxyz")).filter
      (fun p => p.2 == s2c "education")).length = 2 ∧
    dictGet (segmentSections (s2c "EDUCATION\nabc\nQUALIFICATIONS\nxyz"))
      (s2c "education") = s2c "xyz" := by
  decide

/-- C3: for every input text the mapping returned by `segment_sections`
has exactly the six recognized keys, in order (education, experience,
skills, projects, certifications, others); and when zero headers are
found the whole text is assigned to the catch-all key and the other five
sections are empty strings. -/
theorem segment_six_keys (text : Str) :
    (segmentSections text).map Prod.fst = sectionKeys ∧
    (headerIndices text = [] →
      segmentSections text =
        [(s2c "education", []), (s2c "experience", []), (s2c "skills", []),
         (s2c "projects", []), (s2c "certifications", []),
         (s2c "others", text)]) := by
  constructor
  · unfold segmentSections
    by_cases h : headerIndices text = []
    · rw [if_pos h]
      exact updateA_keys text (by decide)
    · rw [if_neg h]
      exact applySlices_keys (fun p hp => mem_headerIndices_sections hp)
  · intro h
    unfold segmentSections
    rw [if_pos h]
    rfl

/-- Witness for C3 at a concrete input: `"hello world"` contains no
section header, so the whole text lands in the catch-all section. -/
theorem segment_six_keys_witness :
    segmentSections (s2c "hello world") =
      [(s2c "education", []), (s2c "experience", []), (s2c "skills", []),
       (s2c "projects", []), (s2c "certifications", []),
       (s2c "others", s2c "hello world")] :=
  (segment_six_keys (s2c "hello world")).2 (by decide)

/-!
### Compatibility-scorer lemmas
-/

theorem minScore_bounds {x : ℚ} (hx : 0 ≤ x) :
    0 ≤ min (x * 100) 100 ∧ min (x * 100) 100 ≤ 100 :=
  ⟨le_min (by positivity) (by norm_num), min_le_right _ _⟩

theorem calculateScoreGen_keywords (dv : ℚ → ℚ → ℚ) (stop : List Str)
    (rd : ResumeData) (jd : Str) :
    (calculateScoreGen dv stop rd jd).keywords = scoreKeywords stop rd jd := rfl

theorem calculateScoreGen_experience (dv : ℚ → ℚ → ℚ) (stop : List Str)
    (rd : ResumeData) (jd : Str) :
    (calculateScoreGen dv stop rd jd).experience =
      scoreExperienceGen dv stop (dictGet rd.sections (s2c "experience")) jd := rfl

theorem calculateScoreGen_projects (dv : ℚ → ℚ → ℚ) (stop : List Str)
    (rd : ResumeData) (jd : Str) :
    (calculateScoreGen dv stop rd jd).projects =
      scoreProjects (dictGet rd.sections (s2c "projects")) := rfl

theorem calculateScoreGen_certifications (dv : ℚ → ℚ → ℚ) (stop : List Str)
    (rd : ResumeData) (jd : Str) :
    (calculateScoreGen dv stop rd jd).certifications =
      scoreCertifications (dictGet rd.sections (s2c "certifications")) := rfl

theorem calculateScoreGen_formatting (dv : ℚ → ℚ → ℚ) (stop : List Str)
    (rd : ResumeData) (jd : Str) :
    (calculateScoreGen dv stop rd jd).formatting = scoreFormatting rd.sections := rfl

theorem calculateScoreGen_overall (dv : ℚ → ℚ → ℚ) (stop : List Str)
    (rd : ResumeData) (jd : Str) :
    (calculateScoreGen dv stop rd jd).overall_score =
      round2 ((scoreKeywords stop rd jd).score * wKeywords +
        (scoreExperienceGen dv stop (dictGet rd.sections (s2c "experience")) jd).score *
          wExperience +
        (scoreProjects (dictGet rd.sections (s2c "projects"))).score * wProjects +
        (scoreCertifications (dictGet rd.sections (s2c "certifications"))).score *
          wCertifications +
        (scoreFormatting rd.sections).score * wFormatting) := rfl

theorem scoreKeywords_bounds (stop : List Str) (rd : ResumeData) (jd : Str) :
    0 ≤ (scoreKeywords stop rd jd).score ∧ (scoreKeywords stop rd jd).score ≤ 100 := by
  unfold scoreKeywords
  apply minScore_bounds
  split
  · positivity
  · exact le_refl 0

theorem scoreExperience_div_bounds (stop : List Str) (expText jd : Str) :
    0 ≤ (scoreExperienceGen (fun a b => a / b) stop expText jd).score ∧
    (scoreExperienceGen (fun a b => a / b) stop expText jd).score ≤ 100 := by
  unfold scoreExperienceGen
  split
  · exact ⟨le_refl 0, by norm_num⟩
  · apply minScore_bounds
    apply div_nonneg (by positivity)
    split
    · positivity
    · norm_num

theorem scoreProjects_bounds (projText : Str) :
    0 ≤ (scoreProjects projText).score ∧ (scoreProjects projText).score ≤ 100 := by
  unfold scoreProjects
  split
  · exact ⟨le_refl 0, by norm_num⟩
  · constructor <;> dsimp only <;> split_ifs <;> norm_num

theorem scoreCertifications_bounds (certText : Str) :
    0 ≤ (scoreCertifications certText).score ∧
    (scoreCertifications certText).score ≤ 100 := by
  unfold scoreCertifications
  constructor <;> dsimp only <;> split_ifs <;> norm_num

theorem scoreFormatting_bounds (sections : List (Str × Str)) :
    0 ≤ (scoreFormatting sections).score ∧ (scoreFormatting sections).score ≤ 100 := by
  unfold scoreFormatting
  dsimp only
  have hle : ([s2c "education", s2c "experience", s2c "skills"].filter
      (fun s => trimS (dictGet sections s) ≠ [])).length ≤ 3 := by
    have := List.length_filter_le
      (fun s => decide (trimS (dictGet sections s) ≠ []))
      [s2c "education", s2c "experience", s2c "skills"]
    simpa using this
  constructor
  · positivity
  · have hc : (([s2c "education", s2c "experience", s2c "skills"].filter
        (fun s => trimS (dictGet sections s) ≠ [])).length : ℚ) ≤ 3 := by
      exact_mod_cast hle
    rw [div_mul_eq_mul_div, div_le_iff₀ (by norm_num)]
    rw [show ([s2c "education", s2c "experience", s2c "skills"] : List Str).length = 3
      from rfl]
    push_cast
    linarith

/-!
## Claim theorems: Compatibility Scorer
-/

/-- C7: the five weights (0.40, 0.30, 0.15, 0.10, 0.05) sum to exactly 1;
for every stop-word set, document and target text, the overall score is
the weighted sum of the five sub-scores rounded to two decimal places,
and lies in [0, 100]. -/
theorem atsScore_weights_overall (stop : List Str) (rd : ResumeData) (jd : Str) :
    wKeywords + wExperience + wProjects + wCertifications + wFormatting = 1 ∧
    (calculateScore stop rd jd).overall_score =
      round2 ((calculateScore stop rd jd).keywords.score * wKeywords +
        (calculateScore stop rd jd).experience.score * wExperience +
        (calculateScore stop rd jd).projects.score * wProjects +
        (calculateScore stop rd jd).certifications.score * wCertifications +
        (calculateScore stop rd jd).formatting.score * wFormatting) ∧
    0 ≤ (calculateScore stop rd jd).overall_score ∧
    (calculateScore stop rd jd).overall_score ≤ 100 := by
  refine ⟨by norm_num [wKeywords, wExperience, wProjects, wCertifications, wFormatting],
    rfl, ?_, ?_⟩
  all_goals
    obtain ⟨k1, k2⟩ := scoreKeywords_bounds stop rd jd
    obtain ⟨e1, e2⟩ := scoreExperience_div_bounds stop
      (dictGet rd.sections (s2c "experience")) jd
    obtain ⟨p1, p2⟩ := scoreProjects_bounds (dictGet rd.sections (s2c "projects"))
    obtain ⟨c1, c2⟩ := scoreCertifications_bounds (dictGet rd.sections (s2c "certifications"))
    obtain ⟨f1, f2⟩ := scoreFormatting_bounds rd.sections
    rw [show calculateScore stop rd jd = calculateScoreGen (fun a b => a / b) stop rd jd
      from rfl, calculateScoreGen_overall]
  · apply round2_nonneg
    simp only [wKeywords, wExperience, wProjects, wCertifications, wFormatting]
    linarith
  · apply round2_le_100
    simp only [wKeywords, wExperience, wProjects, wCertifications, wFormatting]
    linarith

/-- C8: whenever the document's experience section is empty or
whitespace-only, the experience sub-score is exactly 0, and the whole
experience sub-result is independent of the division operation — the
division branch is not evaluated, for every stop-word set and target
text (including a target with zero tokens). -/
theorem atsScore_emptyExperience (stop : List Str) (rd : ResumeData) (jd : Str)
    (h : trimS (dictGet rd.sections (s2c "experience")) = []) :
    (calculateScore stop rd jd).experience.score = 0 ∧
    (∀ dv : ℚ → ℚ → ℚ, (calculateScoreGen dv stop rd jd).experience =
      { score := 0, relevant_terms_found := none,
        message := some (s2c "No experience section found.") }) := by
  constructor
  · rw [show calculateScore stop rd jd = calculateScoreGen (fun a b => a / b) stop rd jd
      from rfl, calculateScoreGen_experience]
    unfold scoreExperienceGen
    rw [if_pos h]
  · intro dv
    rw [calculateScoreGen_experience]
    unfold scoreExperienceGen
    rw [if_pos h]

/-- Witness for C8 at a concrete input: a document whose experience
section is whitespace-only, scored against a non-empty job description. -/
theorem atsScore_emptyExperience_witness :
    (calculateScore []
      { raw_text := s2c "x", sections := [(s2c "experience", s2c "   ")] }
      (s2c "python developer")).experience.score = 0 :=
  (atsScore_emptyExperience []
    { raw_text := s2c "x", sections := [(s2c "experience", s2c "   ")] }
    (s2c "python developer") (by decide)).1

/-!
## Claim theorems: Role Retriever
-/

/-- C9: for every query string and every `k`, `search_similar_roles` on a
store with zero indexed roles returns the empty list — the guard returns
before any encoding or index search, for every encoder and every index
search function, and the embedded function is total (no error). -/
theorem searchSimilarRoles_empty {α : Type} (encode : Str → List ℚ)
    (searchIdx : List (List ℚ) → List ℚ → Nat → List ℚ × List Int)
    (vs : VectorStore α) (query : Str) (k : Nat)
    (h : ntotal vs.index = 0) :
    searchSimilarRoles encode searchIdx vs query k = [] := by
  unfold searchSimilarRoles
  rw [if_pos]
  exact Or.inr (Or.inr h)

/-- Witness for C9 at a concrete input: an available store whose index
holds zero vectors, queried with `"anything"` and `k = 3`. -/
theorem searchSimilarRoles_empty_witness :
    searchSimilarRoles (fun _ => []) (fun _ _ _ => ([], []))
      ({ available := true, index := some [], roles_metadata := [] } : VectorStore Unit)
      (s2c "anything") 3 = [] :=
  searchSimilarRoles_empty (fun _ => []) (fun _ _ _ => ([], []))
    { available := true, index := some [], roles_metadata := [] }
    (s2c "anything") 3 (by decide)

end ResumeReviewer
